import Mathlib

/-!
Shallow embedding of `elf/elf.cc` (libelfin's ELF reader core): header
canonicalization, file opening, section access, and string tables.

Byte images are modelled as `List Nat` (each entry one byte).  The loader
abstraction `load(offset, length)` is modelled as slicing the file's byte
list.  Exceptions are modelled with `Except`.  Machine integers read from
the image are assembled as `Nat` from bytes (each field is bounded by its
width, so no overflow arises on the read side).
-/

namespace Elfpp

/-- Byte `i` of a byte list; bytes outside the list read as 0. -/
def byteAt (b : List Nat) (i : Nat) : Nat := b.getD i 0

/-- Little-endian read of `n` bytes at offset `off`. -/
def readLE (b : List Nat) (off : Nat) : Nat → Nat
  | 0 => 0
  | n + 1 => byteAt b off + 256 * readLE b (off + 1) n

/-- Big-endian read of `n` bytes at offset `off`. -/
def readBE (b : List Nat) (off : Nat) : Nat → Nat
  | 0 => 0
  | n + 1 => byteAt b off * 256 ^ n + readBE b (off + 1) n

/-- Read an `n`-byte field under data encoding `dat` (1 = LSB, 2 = MSB). -/
def readF (dat : Nat) (b : List Nat) (off n : Nat) : Nat :=
  if dat = 2 then readBE b off n else readLE b off n

/-- Little-endian byte serialization of `v` into `n` bytes. -/
def natBytesLE : Nat → Nat → List Nat
  | _, 0 => []
  | v, n + 1 => v % 256 :: natBytesLE (v / 256) n

/-- Big-endian byte serialization of `v` into `n` bytes. -/
def natBytesBE (v n : Nat) : List Nat := (natBytesLE v n).reverse

/-- Serialize an `n`-byte field under data encoding `dat` (1 = LSB, 2 = MSB). -/
def wrF (dat v n : Nat) : List Nat := if dat = 2 then natBytesBE v n else natBytesLE v n

/-- Canonical ELF file header (`Ehdr<>` in native form): the logical fields
the reader uses, per the spec's data model — class, data encoding, version,
section-header table offset, entry size, entry count, and the section-name
string-table index. -/
structure CanonEhdr where
  ei_class : Nat
  ei_data : Nat
  version : Nat
  shoff : Nat
  shentsize : Nat
  shnum : Nat
  shstrndx : Nat
deriving DecidableEq, Repr

/-- Canonical ELF section header (`Shdr<>` in native form): name offset,
type, file offset, size. -/
structure CanonShdr where
  name : Nat
  type : Nat
  offset : Nat
  size : Nat
deriving DecidableEq, Repr

def zeroEhdr : CanonEhdr := ⟨0, 0, 0, 0, 0, 0, 0⟩

def zeroShdr : CanonShdr := ⟨0, 0, 0, 0⟩

/-- Decode an `Ehdr<Elf32, Order>` physical layout (52 bytes): version at
offset 20 (4 bytes), shoff at 32 (4), shentsize at 46 (2), shnum at 48 (2),
shstrndx at 50 (2); identification bytes 4 and 5 give class and data. -/
def decodeEhdr32 (dat : Nat) (b : List Nat) : CanonEhdr :=
  { ei_class := byteAt b 4
    ei_data := byteAt b 5
    version := readF dat b 20 4
    shoff := readF dat b 32 4
    shentsize := readF dat b 46 2
    shnum := readF dat b 48 2
    shstrndx := readF dat b 50 2 }

/-- Decode an `Ehdr<Elf64, Order>` physical layout (64 bytes): version at
offset 20 (4 bytes), shoff at 40 (8), shentsize at 58 (2), shnum at 60 (2),
shstrndx at 62 (2). -/
def decodeEhdr64 (dat : Nat) (b : List Nat) : CanonEhdr :=
  { ei_class := byteAt b 4
    ei_data := byteAt b 5
    version := readF dat b 20 4
    shoff := readF dat b 40 8
    shentsize := readF dat b 58 2
    shnum := readF dat b 60 2
    shstrndx := readF dat b 62 2 }

/-- Decode a `Shdr<Elf32, Order>` physical layout (40 bytes): name at 0 (4),
type at 4 (4), offset at 16 (4), size at 20 (4). -/
def decodeShdr32 (dat : Nat) (b : List Nat) : CanonShdr :=
  { name := readF dat b 0 4
    type := readF dat b 4 4
    offset := readF dat b 16 4
    size := readF dat b 20 4 }

/-- Decode a `Shdr<Elf64, Order>` physical layout (64 bytes): name at 0 (4),
type at 4 (4), offset at 24 (8), size at 32 (8). -/
def decodeShdr64 (dat : Nat) (b : List Nat) : CanonShdr :=
  { name := readF dat b 0 4
    type := readF dat b 4 4
    offset := readF dat b 24 8
    size := readF dat b 32 8 }

/-- Function `canon_hdr` of `elf.cc` for the file header, translated faithfully,
including the missing `break` after the `elfclass::_32` arm of the outer
switch: after a 32-bit header has been decoded, control falls through into
the `elfclass::_64` arm and re-decodes the same bytes under the 64-bit
layout, overwriting the 32-bit result.  `init` is the value of `*out` on
entry (relevant only when class or data encoding is unvalidated). -/
def canon_ehdr (init : CanonEhdr) (cls dat : Nat) (b : List Nat) : CanonEhdr :=
  if cls = 1 then
    -- case elfclass::_32 — decodes, then falls through into the _64 arm
    let out32 := if dat = 1 then decodeEhdr32 1 b
                 else if dat = 2 then decodeEhdr32 2 b else init
    if dat = 1 then decodeEhdr64 1 b
    else if dat = 2 then decodeEhdr64 2 b else out32
  else if cls = 2 then
    if dat = 1 then decodeEhdr64 1 b
    else if dat = 2 then decodeEhdr64 2 b else init
  else init

/-- Function `canon_hdr` of `elf.cc` for a section header, with the same fallthrough
from the 32-bit arm into the 64-bit arm. -/
def canon_shdr (init : CanonShdr) (cls dat : Nat) (b : List Nat) : CanonShdr :=
  if cls = 1 then
    let out32 := if dat = 1 then decodeShdr32 1 b
                 else if dat = 2 then decodeShdr32 2 b else init
    if dat = 1 then decodeShdr64 1 b
    else if dat = 2 then decodeShdr64 2 b else out32
  else if cls = 2 then
    if dat = 1 then decodeShdr64 1 b
    else if dat = 2 then decodeShdr64 2 b else init
  else init

/-- Modelled from the spec: the intended exhaustive canonicalizer for file
headers — each of the four (class, endianness) combinations is handled
exclusively, with no fallthrough between arms (spec §4.1 and the §9 note on
the missing `break`). -/
def canon_ehdr_spec (init : CanonEhdr) (cls dat : Nat) (b : List Nat) : CanonEhdr :=
  if cls = 1 then
    if dat = 1 then decodeEhdr32 1 b
    else if dat = 2 then decodeEhdr32 2 b else init
  else if cls = 2 then
    if dat = 1 then decodeEhdr64 1 b
    else if dat = 2 then decodeEhdr64 2 b else init
  else init

/-- Modelled from the spec: synthetic encoding of a logical file header into
the `Ehdr<Elf32, Order>` physical layout (52 bytes), used to state the
round-trip property of §8. -/
def encodeEhdr32 (dat : Nat) (h : CanonEhdr) : List Nat :=
  [0x7f, 0x45, 0x4c, 0x46, h.ei_class, h.ei_data, 1, 0, 0, 0, 0, 0, 0, 0, 0, 0]
    ++ wrF dat 0 2            -- e_type
    ++ wrF dat 0 2            -- e_machine
    ++ wrF dat h.version 4
    ++ wrF dat 0 4            -- e_entry
    ++ wrF dat 0 4            -- e_phoff
    ++ wrF dat h.shoff 4
    ++ wrF dat 0 4            -- e_flags
    ++ wrF dat 52 2           -- e_ehsize
    ++ wrF dat 0 2            -- e_phentsize
    ++ wrF dat 0 2            -- e_phnum
    ++ wrF dat h.shentsize 2
    ++ wrF dat h.shnum 2
    ++ wrF dat h.shstrndx 2

/-- Modelled from the spec: synthetic encoding of a logical file header into
the `Ehdr<Elf64, Order>` physical layout (64 bytes). -/
def encodeEhdr64 (dat : Nat) (h : CanonEhdr) : List Nat :=
  [0x7f, 0x45, 0x4c, 0x46, h.ei_class, h.ei_data, 1, 0, 0, 0, 0, 0, 0, 0, 0, 0]
    ++ wrF dat 0 2            -- e_type
    ++ wrF dat 0 2            -- e_machine
    ++ wrF dat h.version 4
    ++ wrF dat 0 8            -- e_entry
    ++ wrF dat 0 8            -- e_phoff
    ++ wrF dat h.shoff 8
    ++ wrF dat 0 4            -- e_flags
    ++ wrF dat 64 2           -- e_ehsize
    ++ wrF dat 0 2            -- e_phentsize
    ++ wrF dat 0 2            -- e_phnum
    ++ wrF dat h.shentsize 2
    ++ wrF dat h.shnum 2
    ++ wrF dat h.shstrndx 2

/-- Modelled from the spec: synthetic encoding of a logical section header
into the `Shdr<Elf32, Order>` physical layout (40 bytes). -/
def encodeShdr32 (dat : Nat) (h : CanonShdr) : List Nat :=
  wrF dat h.name 4 ++ wrF dat h.type 4 ++ wrF dat 0 4 ++ wrF dat 0 4
    ++ wrF dat h.offset 4 ++ wrF dat h.size 4
    ++ wrF dat 0 4 ++ wrF dat 0 4 ++ wrF dat 0 4 ++ wrF dat 0 4

/-- Modelled from the spec: synthetic encoding of a logical section header
into the `Shdr<Elf64, Order>` physical layout (64 bytes). -/
def encodeShdr64 (dat : Nat) (h : CanonShdr) : List Nat :=
  wrF dat h.name 4 ++ wrF dat h.type 4 ++ wrF dat 0 8 ++ wrF dat 0 8
    ++ wrF dat h.offset 8 ++ wrF dat h.size 8
    ++ wrF dat 0 4 ++ wrF dat 0 4 ++ wrF dat 0 8 ++ wrF dat 0 8

/-- The three exception kinds thrown by `elf.cc`: `format_error`,
`range_error` (the library's own, not `std::range_error`), and
`section_type_mismatch`. -/
inductive ElfError where
  | formatError (msg : String)
  | rangeError (msg : String)
  | typeMismatch (msg : String)
deriving DecidableEq, Repr

/-- Index of the first zero byte of a list, if any (the
`while (p < m->end && *p) p++;` scan of `strtab::get`). -/
def findNull : List Nat → Option Nat
  | [] => none
  | b :: rest => if b = 0 then some 0 else (findNull rest).map (· + 1)

/-- Method `strtab::get(offset, len_out)`.  The table is the byte range
`[data, end)`; `start = data + offset`.  Throws `range_error` when
`start >= end`, scans for a null terminator, throws `format_error` when the
scan hits the end, and otherwise returns the slice before the terminator
together with its length (`p - start`, reported through `len_out`). -/
def strtab_get (tab : List Nat) (off : Nat) : Except ElfError (List Nat × Nat) :=
  if tab.length ≤ off then
    .error (.rangeError ("string offset " ++ toString off ++ " exceeds section size"))
  else
    match findNull (tab.drop off) with
    | none => .error (.formatError "unterminated string")
    | some k => .ok ((tab.drop off).take k, k)

/-- Operation `loader::load(offset, length)`, modelled over the file's byte image:
the requested range as a slice (an out-of-range request is the loader's own
failure domain and is modelled as a short slice). -/
def loadBytes (b : List Nat) (off len : Nat) : List Nat := (b.drop off).take len

/-- The section-header `type` value for string-table sections
(`sht::strtab`). -/
def shtStrtab : Nat := 3

/-- The section-header `type` value for no-bits sections (`sht::nobits`). -/
def shtNobits : Nat := 8

/-- One `section` object: its canonical header plus the lazily cached
resolved name and data payload (the `name`/`name_len` and `data` members of
`section::impl`; `none` models the null/unset pointer). -/
structure SecState where
  hdr : CanonShdr
  nameCache : Option (List Nat)
  dataCache : Option (List Nat)
deriving DecidableEq, Repr

/-- One `file` object: the loader's byte image, the canonical file header,
and the eagerly decoded sections. -/
structure FileState where
  fileBytes : List Nat
  hdr : CanonEhdr
  sections : List SecState
deriving DecidableEq, Repr

/-- Modelled from the spec: the `invalid_section` sentinel (a
default-constructed `section`, declared in the header file) — a
distinguished value whose kind is the null/unknown type and whose size is
0, returned by out-of-range or not-found lookups. -/
def invalid_section : SecState :=
  { hdr := zeroShdr, nameCache := none, dataCache := none }

def elfMagic : List Nat := [0x7f, 0x45, 0x4c, 0x46]

/-- The canonical file header `file::file` computes: `canon_hdr` applied to
the first 52 or 64 bytes (per the class byte) under the identified class
and data encoding. -/
def openEhdr (bytes : List Nat) : CanonEhdr :=
  canon_ehdr zeroEhdr (byteAt bytes 4) (byteAt bytes 5)
    (loadBytes bytes 0 (if byteAt bytes 4 = 1 then 52 else 64))

/-- The sections vector `file::file` builds: one section per entry of the
section-header table (`shnum` entries of `shentsize` bytes each, loaded in
one range request at `shoff`), each canonicalized under the file's class
and data encoding, with empty caches. -/
def openSections (bytes : List Nat) : List SecState :=
  (List.range (openEhdr bytes).shnum).map fun i =>
    { hdr := canon_shdr zeroShdr (openEhdr bytes).ei_class (openEhdr bytes).ei_data
        ((loadBytes bytes (openEhdr bytes).shoff
            ((openEhdr bytes).shentsize * (openEhdr bytes).shnum)).drop
          (i * (openEhdr bytes).shentsize))
      nameCache := none
      dataCache := none }

/-- The `file` object a successful open produces. -/
def openFile (bytes : List Nat) : FileState :=
  { fileBytes := bytes, hdr := openEhdr bytes, sections := openSections bytes }

/-- Constructor `file::file(loader)`: check magic, identification version, class and
data-encoding bytes; canonicalize the full header; check its version and
the string-table index; then decode the section-header table.  A thrown
exception is modelled as `.error` (the constructor throws, so no `file`
object exists on failure). -/
def file_open (bytes : List Nat) : Except ElfError FileState :=
  if loadBytes bytes 0 4 ≠ elfMagic then
    .error (.formatError "bad ELF magic number")
  else if byteAt bytes 6 ≠ 1 then
    .error (.formatError "unknown ELF version")
  else if byteAt bytes 4 ≠ 1 ∧ byteAt bytes 4 ≠ 2 then
    .error (.formatError "bad ELF class")
  else if byteAt bytes 5 ≠ 1 ∧ byteAt bytes 5 ≠ 2 then
    .error (.formatError "bad ELF data order")
  else if (openEhdr bytes).version ≠ 1 then
    .error (.formatError "bad section ELF version")
  else if (openEhdr bytes).shnum ≠ 0 ∧ (openEhdr bytes).shnum ≤ (openEhdr bytes).shstrndx then
    .error (.formatError "bad section name string table index")
  else
    .ok (openFile bytes)

/-- Method `file::get_section(index)`: bounds-checked lookup, sentinel on miss. -/
def file_get_section_idx (fs : FileState) (idx : Nat) : SecState :=
  (fs.sections.getD idx invalid_section)

/-- Replace section `i`'s object (cache writes through the section's
shared `impl`). -/
def updateSec (fs : FileState) (i : Nat) (s : SecState) : FileState :=
  { fs with sections := fs.sections.set i s }

/-- Method `section::data()` on section `i` of `fs`: `nullptr` (absent, no load)
for no-bits sections; otherwise load `[offset, offset + size)` on first
call and cache it.  Returns the payload, the updated file state, and the
number of loader calls performed. -/
def sec_data (fs : FileState) (i : Nat) : Option (List Nat) × FileState × Nat :=
  let s := file_get_section_idx fs i
  if s.hdr.type = shtNobits then (none, fs, 0)
  else
    match s.dataCache with
    | some d => (some d, fs, 0)
    | none =>
      let d := loadBytes fs.fileBytes s.hdr.offset s.hdr.size
      (some d, updateSec fs i { s with dataCache := some d }, 1)

/-- Method `section::as_strtab()` on section `i`: `section_type_mismatch` unless
the type is `sht::strtab`; otherwise a string-table view over `data()` and
`size()`.  Returns the table bytes, the updated file state (the `data()`
call may populate the section's data cache), and the loader-call count. -/
def sec_as_strtab (fs : FileState) (i : Nat) :
    Except ElfError (List Nat × FileState × Nat) :=
  let s := file_get_section_idx fs i
  if s.hdr.type ≠ shtStrtab then
    .error (.typeMismatch "cannot use section as strtab")
  else
    let r := sec_data fs i
    .ok (r.1.getD [], r.2.1, r.2.2)

/-- Method `section::get_name(len_out)` on section `i`: return the cached name if
set; otherwise resolve it through
`f.get_section(f.get_hdr().shstrndx).as_strtab().get(hdr.name, &name_len)`
and cache the result. -/
def sec_get_name (fs : FileState) (i : Nat) :
    Except ElfError (List Nat × FileState × Nat) :=
  let s := file_get_section_idx fs i
  match s.nameCache with
  | some n => .ok (n, fs, 0)
  | none =>
    match sec_as_strtab fs fs.hdr.shstrndx with
    | .error e => .error e
    | .ok (tab, fs1, c) =>
      match strtab_get tab s.hdr.name with
      | .error e => .error e
      | .ok (str, _) =>
        let s1 := file_get_section_idx fs1 i
        .ok (str, updateSec fs1 i { s1 with nameCache := some str }, c)

/-- The scan body of `file::get_section(name)` over the listed section indices:
resolve each name in order, return the section on the first match, the
sentinel when the indices are exhausted; a resolution exception
propagates. -/
def scan_name (name : List Nat) : List Nat → FileState →
    Except ElfError (SecState × FileState)
  | [], fs => .ok (invalid_section, fs)
  | k :: rest, fs =>
    match sec_get_name fs k with
    | .error e => .error e
    | .ok (n, fs1, _) =>
      if n = name then .ok (file_get_section_idx fs1 k, fs1)
      else scan_name name rest fs1

/-- Method `file::get_section(name)`: linear scan of the sections vector in table
order. -/
def file_get_section_name (fs : FileState) (name : List Nat) :
    Except ElfError (SecState × FileState) :=
  scan_name name (List.range fs.sections.length) fs

/-- The cache-free denotation of resolving section `i`'s name: look up the
file's `shstrndx` section, require it to be a string table, and run
`strtab::get` over its `[offset, offset + size)` byte range at section
`i`'s name offset.  `sec_get_name` computes exactly this whenever the
caches hold nothing stale (see `Consistent`). -/
def resolveName (fs : FileState) (i : Nat) : Except ElfError (List Nat) :=
  if (file_get_section_idx fs fs.hdr.shstrndx).hdr.type ≠ shtStrtab then
    .error (.typeMismatch "cannot use section as strtab")
  else
    match strtab_get
        (loadBytes fs.fileBytes (file_get_section_idx fs fs.hdr.shstrndx).hdr.offset
          (file_get_section_idx fs fs.hdr.shstrndx).hdr.size)
        (file_get_section_idx fs i).hdr.name with
    | .error e => .error e
    | .ok r => .ok r.1

/-- Two file states with the same bytes, header, and section headers
(they may differ only in the sections' private caches). -/
def SameShape (fs fs1 : FileState) : Prop :=
  fs1.fileBytes = fs.fileBytes ∧ fs1.hdr = fs.hdr ∧
  fs1.sections.length = fs.sections.length ∧
  ∀ k, (file_get_section_idx fs1 k).hdr = (file_get_section_idx fs k).hdr

/-- Every populated cache holds the value lazy loading would compute: a
populated data cache holds the section's `[offset, offset + size)` range,
and a populated name cache holds the section's resolved name.  Freshly
opened files satisfy this (all caches empty), and every operation
preserves it. -/
def Consistent (fs : FileState) : Prop :=
  ∀ i, (∀ d, (file_get_section_idx fs i).dataCache = some d →
         d = loadBytes fs.fileBytes (file_get_section_idx fs i).hdr.offset
               (file_get_section_idx fs i).hdr.size) ∧
       (∀ n, (file_get_section_idx fs i).nameCache = some n → resolveName fs i = .ok n)

/-- A concrete synthetic 64-bit little-endian ELF image: header, three
section headers at offset 64 (entry size 64) — index 0 a string table
(type `sht::strtab`, 22 payload bytes `"\0.shstrtab\0.text\0.bss\0"` at
offset 256), index 1 a `.text` section (name offset 11, 4-byte payload at
offset 278), index 2 a `.bss` no-bits section (name offset 17, type
`sht::nobits`) — with `shstrndx = 0`. -/
def exFile : List Nat :=
  encodeEhdr64 1 ⟨2, 1, 1, 64, 64, 3, 0⟩
    ++ encodeShdr64 1 ⟨1, 3, 256, 22⟩
    ++ encodeShdr64 1 ⟨11, 1, 278, 4⟩
    ++ encodeShdr64 1 ⟨17, 8, 0, 8⟩
    ++ [0, 46, 115, 104, 115, 116, 114, 116, 97, 98, 0,
        46, 116, 101, 120, 116, 0, 46, 98, 115, 115, 0]
    ++ [1, 2, 3, 4]

/-- The file state `file_open exFile` produces. -/
def exFs : FileState := openFile exFile

/-- The file state after resolving section 1's name on a freshly opened
`exFile` (section 1's name cache and — through the string-table lookup —
section 0's data cache are populated). -/
def exFsAfterName : FileState :=
  ((sec_get_name exFs 1).toOption.map (·.2.1)).getD exFs

/-- The bytes of the name `".text"`. -/
def dotText : List Nat := [46, 116, 101, 120, 116]

/-- The bytes of the name `".shstrtab"`. -/
def dotShstrtab : List Nat := [46, 115, 104, 115, 116, 114, 116, 97, 98]

/-- The bytes of the name `".bss"`. -/
def dotBss : List Nat := [46, 98, 115, 115]

/-- Like `exFile`, except section 1's name offset is 100, beyond the
22-byte string table, so resolving that section's name throws
`range_error`. -/
def exFileBadName : List Nat :=
  encodeEhdr64 1 ⟨2, 1, 1, 64, 64, 3, 0⟩
    ++ encodeShdr64 1 ⟨1, 3, 256, 22⟩
    ++ encodeShdr64 1 ⟨100, 1, 278, 4⟩
    ++ encodeShdr64 1 ⟨17, 8, 0, 8⟩
    ++ [0, 46, 115, 104, 115, 116, 114, 116, 97, 98, 0,
        46, 116, 101, 120, 116, 0, 46, 98, 115, 115, 0]
    ++ [1, 2, 3, 4]

example : (encodeEhdr32 1 ⟨1, 1, 1, 52, 40, 3, 2⟩).length = 52 := by decide
example : (encodeEhdr64 1 ⟨2, 1, 1, 64, 64, 2, 0⟩).length = 64 := by decide
example : (encodeShdr32 1 ⟨1, 3, 92, 11⟩).length = 40 := by decide
example : (encodeShdr64 1 ⟨1, 3, 192, 17⟩).length = 64 := by decide

example : canon_ehdr_spec zeroEhdr 1 1 (encodeEhdr32 1 ⟨1, 1, 1, 52, 40, 3, 2⟩)
    = ⟨1, 1, 1, 52, 40, 3, 2⟩ := by decide

example : canon_ehdr zeroEhdr 1 1 (encodeEhdr32 1 ⟨1, 1, 1, 52, 40, 3, 2⟩)
    ≠ ⟨1, 1, 1, 52, 40, 3, 2⟩ := by decide

/-- C1: the claim that the canonicalizer handles each of the four
(class, endianness) layouts exclusively and reproduces the encoded logical
field values fails on the code: for a 32-bit header (either byte order)
the missing `break` lets control fall through into the 64-bit arm, which
overwrites the correct 32-bit decode with a 64-bit reinterpretation of the
same bytes.  The spec-modelled exhaustive canonicalizer round-trips all
four layouts of the same logical header; the code's does so only for the
two 64-bit layouts, and on the 32-bit layouts produces exactly the 64-bit
decode instead of the encoded values. -/
theorem canon_hdr_class32_fallthrough_bug :
    (canon_ehdr zeroEhdr 1 1 (encodeEhdr32 1 ⟨1, 1, 1, 52, 40, 3, 2⟩)
        ≠ ⟨1, 1, 1, 52, 40, 3, 2⟩) ∧
    (canon_ehdr zeroEhdr 1 2 (encodeEhdr32 2 ⟨1, 2, 1, 52, 40, 3, 2⟩)
        ≠ ⟨1, 2, 1, 52, 40, 3, 2⟩) ∧
    (canon_ehdr zeroEhdr 1 1 (encodeEhdr32 1 ⟨1, 1, 1, 52, 40, 3, 2⟩)
        = decodeEhdr64 1 (encodeEhdr32 1 ⟨1, 1, 1, 52, 40, 3, 2⟩)) ∧
    (canon_ehdr zeroEhdr 1 2 (encodeEhdr32 2 ⟨1, 2, 1, 52, 40, 3, 2⟩)
        = decodeEhdr64 2 (encodeEhdr32 2 ⟨1, 2, 1, 52, 40, 3, 2⟩)) ∧
    (canon_ehdr zeroEhdr 2 1 (encodeEhdr64 1 ⟨2, 1, 1, 64, 64, 3, 2⟩)
        = ⟨2, 1, 1, 64, 64, 3, 2⟩) ∧
    (canon_ehdr zeroEhdr 2 2 (encodeEhdr64 2 ⟨2, 2, 1, 64, 64, 3, 2⟩)
        = ⟨2, 2, 1, 64, 64, 3, 2⟩) ∧
    (canon_ehdr_spec zeroEhdr 1 1 (encodeEhdr32 1 ⟨1, 1, 1, 52, 40, 3, 2⟩)
        = ⟨1, 1, 1, 52, 40, 3, 2⟩) ∧
    (canon_ehdr_spec zeroEhdr 1 2 (encodeEhdr32 2 ⟨1, 2, 1, 52, 40, 3, 2⟩)
        = ⟨1, 2, 1, 52, 40, 3, 2⟩) ∧
    (canon_ehdr_spec zeroEhdr 2 1 (encodeEhdr64 1 ⟨2, 1, 1, 64, 64, 3, 2⟩)
        = ⟨2, 1, 1, 64, 64, 3, 2⟩) ∧
    (canon_ehdr_spec zeroEhdr 2 2 (encodeEhdr64 2 ⟨2, 2, 1, 64, 64, 3, 2⟩)
        = ⟨2, 2, 1, 64, 64, 3, 2⟩) := by
  decide

theorem findNull_eq_none_iff (l : List Nat) :
    findNull l = none ↔ ∀ x ∈ l, x ≠ 0 := by
  induction l with
  | nil => simp [findNull]
  | cons b rest ih =>
    by_cases hb : b = 0
    · subst hb
      simp [findNull]
    · simp only [findNull, if_neg hb, Option.map_eq_none', List.mem_cons]
      constructor
      · intro h x hx
        rcases hx with hx | hx
        · subst hx; exact hb
        · exact ih.mp h x hx
      · intro h
        exact ih.mpr fun x hx => h x (Or.inr hx)

theorem findNull_eq_some (l : List Nat) : ∀ k, findNull l = some k →
    k < l.length ∧ l.getD k 1 = 0 ∧ ∀ i < k, l.getD i 1 ≠ 0 := by
  induction l with
  | nil => intro k h; simp [findNull] at h
  | cons b rest ih =>
    intro k h
    by_cases hb : b = 0
    · subst hb
      simp only [findNull, if_pos rfl] at h
      obtain rfl : k = 0 := by cases h; rfl
      exact ⟨by simp, by simp, fun i hi => absurd hi (Nat.not_lt_zero i)⟩
    · simp only [findNull, if_neg hb, Option.map_eq_some'] at h
      obtain ⟨k', hk', rfl⟩ := h
      obtain ⟨h1, h2, h3⟩ := ih k' hk'
      refine ⟨by simpa using Nat.succ_lt_succ h1, by simpa using h2, ?_⟩
      intro i hi
      cases i with
      | zero => simpa using hb
      | succ i' =>
        simp only [List.getD_cons_succ]
        exact h3 i' (Nat.lt_of_succ_lt_succ hi)

/-- C2: `strtab::get(offset)` throws `range_error` exactly when the offset
is at or beyond the table's end; otherwise it throws `format_error` exactly
when no null byte occurs at or after the offset; otherwise it returns the
bytes strictly between the start position and the first null terminator
(terminator excluded) and reports that slice's length. -/
theorem strtab_get_correct (tab : List Nat) (off : Nat) :
    ((∃ m, strtab_get tab off = .error (.rangeError m)) ↔ tab.length ≤ off) ∧
    ((∃ m, strtab_get tab off = .error (.formatError m)) ↔
      off < tab.length ∧ ∀ x ∈ tab.drop off, x ≠ 0) ∧
    (∀ s len, strtab_get tab off = .ok (s, len) →
      off < tab.length ∧ len = s.length ∧
      ∃ k, (tab.drop off).getD k 1 = 0 ∧ (∀ i < k, (tab.drop off).getD i 1 ≠ 0) ∧
        s = (tab.drop off).take k ∧ len = k) := by
  unfold strtab_get
  by_cases h : tab.length ≤ off
  · simp only [if_pos h]
    refine ⟨⟨fun _ => h, fun _ => ⟨_, rfl⟩⟩, ?_, ?_⟩
    · constructor
      · rintro ⟨m, hm⟩
        rw [Except.error.injEq] at hm
        cases hm
      · rintro ⟨h1, _⟩; omega
    · intro s len hsl; cases hsl
  · simp only [if_neg h]
    push_neg at h
    cases hf : findNull (tab.drop off) with
    | none =>
      refine ⟨?_, ?_, ?_⟩
      · constructor
        · rintro ⟨m, hm⟩
          rw [Except.error.injEq] at hm
          cases hm
        · intro hle; omega
      · constructor
        · intro _
          exact ⟨h, (findNull_eq_none_iff _).mp hf⟩
        · intro _
          exact ⟨_, rfl⟩
      · intro s len hsl; cases hsl
    | some k =>
      obtain ⟨hk1, hk2, hk3⟩ := findNull_eq_some _ k hf
      refine ⟨?_, ?_, ?_⟩
      · constructor
        · rintro ⟨m, hm⟩; cases hm
        · intro hle; omega
      · constructor
        · rintro ⟨m, hm⟩; cases hm
        · rintro ⟨_, hall⟩
          have hmem := List.getElem_mem hk1
          rw [← List.getD_eq_getElem _ 1 hk1, hk2] at hmem
          exact absurd rfl (hall 0 hmem)
      · intro s len hsl
        rw [Except.ok.injEq, Prod.mk.injEq] at hsl
        obtain ⟨hs, hlen⟩ := hsl
        subst hs; subst hlen
        refine ⟨h, ?_, k, hk2, hk3, rfl, rfl⟩
        rw [List.length_take]
        omega

theorem strtab_get_correct_witness :
    1 < ([104, 105, 0] : List Nat).length ∧ 1 = ([105] : List Nat).length ∧
    ∃ k, (([104, 105, 0] : List Nat).drop 1).getD k 1 = 0 ∧
      (∀ i < k, (([104, 105, 0] : List Nat).drop 1).getD i 1 ≠ 0) ∧
      ([105] : List Nat) = (([104, 105, 0] : List Nat).drop 1).take k ∧ 1 = k :=
  (strtab_get_correct [104, 105, 0] 1).2.2 [105] 1 rfl

/-- C3: `file::file` throws `format_error` exactly when the magic bytes,
the identification version byte, the class byte, the data-encoding byte,
the canonical header's version field, or the string-table index check
(applied only when `shnum` is nonzero) is bad; it throws nothing else, and
when none of these conditions holds, construction succeeds. -/
theorem file_open_format_error_iff (bytes : List Nat) :
    ((∃ m, file_open bytes = .error (.formatError m)) ↔
      (loadBytes bytes 0 4 ≠ elfMagic ∨ byteAt bytes 6 ≠ 1 ∨
       (byteAt bytes 4 ≠ 1 ∧ byteAt bytes 4 ≠ 2) ∨
       (byteAt bytes 5 ≠ 1 ∧ byteAt bytes 5 ≠ 2) ∨
       (openEhdr bytes).version ≠ 1 ∨
       ((openEhdr bytes).shnum ≠ 0 ∧ (openEhdr bytes).shnum ≤ (openEhdr bytes).shstrndx))) ∧
    (∀ e, file_open bytes = .error e → ∃ m, e = .formatError m) ∧
    (loadBytes bytes 0 4 = elfMagic → byteAt bytes 6 = 1 →
      (byteAt bytes 4 = 1 ∨ byteAt bytes 4 = 2) → (byteAt bytes 5 = 1 ∨ byteAt bytes 5 = 2) →
      (openEhdr bytes).version = 1 →
      ((openEhdr bytes).shnum = 0 ∨ (openEhdr bytes).shstrndx < (openEhdr bytes).shnum) →
      file_open bytes = .ok (openFile bytes)) := by
  unfold file_open
  split_ifs with h1 h2 h3 h4 h5 h6
  · exact ⟨⟨fun _ => by tauto, fun _ => ⟨_, rfl⟩⟩, fun e he => ⟨_, (Except.error.injEq _ _ ▸ he).symm⟩,
      fun c1 _ _ _ _ _ => absurd c1 h1⟩
  · exact ⟨⟨fun _ => by tauto, fun _ => ⟨_, rfl⟩⟩, fun e he => ⟨_, (Except.error.injEq _ _ ▸ he).symm⟩,
      fun _ c2 _ _ _ _ => absurd c2 h2⟩
  · exact ⟨⟨fun _ => by tauto, fun _ => ⟨_, rfl⟩⟩, fun e he => ⟨_, (Except.error.injEq _ _ ▸ he).symm⟩,
      fun _ _ c3 _ _ _ => by tauto⟩
  · exact ⟨⟨fun _ => by tauto, fun _ => ⟨_, rfl⟩⟩, fun e he => ⟨_, (Except.error.injEq _ _ ▸ he).symm⟩,
      fun _ _ _ c4 _ _ => by tauto⟩
  · exact ⟨⟨fun _ => by tauto, fun _ => ⟨_, rfl⟩⟩, fun e he => ⟨_, (Except.error.injEq _ _ ▸ he).symm⟩,
      fun _ _ _ _ c5 _ => absurd c5 h5⟩
  · exact ⟨⟨fun _ => by tauto, fun _ => ⟨_, rfl⟩⟩, fun e he => ⟨_, (Except.error.injEq _ _ ▸ he).symm⟩,
      fun _ _ _ _ _ c6 => by rcases c6 with c6 | c6 <;> [exact absurd c6 h6.1; omega]⟩
  · refine ⟨⟨?_, ?_⟩, ?_, fun _ _ _ _ _ _ => rfl⟩
    · rintro ⟨m, hm⟩
      cases hm
    · intro hD
      push_neg at h1 h2 h3 h4 h5 h6
      rcases hD with hD | hD | hD | hD | hD | hD <;>
        first
          | tauto
          | (obtain ⟨hn0, hle⟩ := hD
             have := h6 hn0
             omega)
    · intro e he
      cases he

theorem file_open_format_error_iff_witness :
    file_open exFile = .ok (openFile exFile) :=
  (file_open_format_error_iff exFile).2.2 rfl rfl (by decide) (by decide) (by decide)
    (Or.inr (by decide))

/-- C4: any of the four prefix corruptions (bad magic, bad identification
version, invalid class byte, invalid data-encoding byte) makes `file::file`
throw `format_error`, and the failed open yields no `file` value at all
(the constructor throws, modelled as `.error`, so no — not even a
partial — `FileState` results). -/
theorem file_open_atomic_on_bad_prefix (bytes : List Nat)
    (hbad : loadBytes bytes 0 4 ≠ elfMagic ∨ byteAt bytes 6 ≠ 1 ∨
      (byteAt bytes 4 ≠ 1 ∧ byteAt bytes 4 ≠ 2) ∨
      (byteAt bytes 5 ≠ 1 ∧ byteAt bytes 5 ≠ 2)) :
    (∃ m, file_open bytes = .error (.formatError m)) ∧
    ∀ fs, file_open bytes ≠ .ok fs := by
  unfold file_open
  split_ifs with h1 h2 h3 h4 h5 h6 <;>
    first
      | exact ⟨⟨_, rfl⟩, fun fs hfs => by cases hfs⟩
      | · exfalso
          push_neg at h1 h2 h3 h4
          tauto

theorem file_open_atomic_on_bad_prefix_witness :
    (∃ m, file_open [0, 1, 2, 3] = .error (.formatError m)) ∧
    ∀ fs, file_open [0, 1, 2, 3] ≠ .ok fs :=
  file_open_atomic_on_bad_prefix [0, 1, 2, 3] (Or.inl (by decide))

/-- C10: when the canonical section-header entry count is zero, the
string-table index check is skipped, so the open succeeds for every value
of `shstrndx` (no hypothesis constrains it), and the resulting file has an
empty sections vector. -/
theorem file_open_shnum_zero (bytes : List Nat)
    (c1 : loadBytes bytes 0 4 = elfMagic) (c2 : byteAt bytes 6 = 1)
    (c3 : byteAt bytes 4 = 1 ∨ byteAt bytes 4 = 2)
    (c4 : byteAt bytes 5 = 1 ∨ byteAt bytes 5 = 2)
    (c5 : (openEhdr bytes).version = 1) (c6 : (openEhdr bytes).shnum = 0) :
    file_open bytes = .ok (openFile bytes) ∧ (openFile bytes).sections = [] := by
  constructor
  · unfold file_open
    split_ifs with h1 h2 h3 h4 h5 h6
    · exact absurd c1 h1
    · exact absurd c2 h2
    · tauto
    · tauto
    · exact absurd c5 h5
    · exact absurd c6 h6.1
    · rfl
  · show (openFile bytes).sections = []
    simp [openFile, openSections, c6]

theorem getD_set_self {α : Type} (l : List α) (i : Nat) (a d : α) (h : i < l.length) :
    (l.set i a).getD i d = a := by
  rw [List.getD_eq_getElem?_getD, List.getElem?_set_self h]
  rfl

theorem getD_set_ne {α : Type} (l : List α) (i j : Nat) (a d : α) (h : i ≠ j) :
    (l.set i a).getD j d = l.getD j d := by
  rw [List.getD_eq_getElem?_getD, List.getElem?_set_ne h, ← List.getD_eq_getElem?_getD]

theorem idx_updateSec_self (fs : FileState) (i : Nat) (s : SecState)
    (h : i < fs.sections.length) :
    file_get_section_idx (updateSec fs i s) i = s :=
  getD_set_self _ _ _ _ h

theorem idx_updateSec_ne (fs : FileState) (i j : Nat) (s : SecState) (h : i ≠ j) :
    file_get_section_idx (updateSec fs i s) j = file_get_section_idx fs j :=
  getD_set_ne _ _ _ _ _ h

theorem idx_oob (fs : FileState) (i : Nat) (h : fs.sections.length ≤ i) :
    file_get_section_idx fs i = invalid_section := by
  unfold file_get_section_idx
  rw [List.getD_eq_getElem?_getD, List.getElem?_eq_none h]
  rfl

theorem updateSec_oob (fs : FileState) (i : Nat) (s : SecState)
    (h : fs.sections.length ≤ i) : updateSec fs i s = fs := by
  unfold updateSec
  rw [List.set_eq_of_length_le h]

theorem updateSec_length (fs : FileState) (i : Nat) (s : SecState) :
    (updateSec fs i s).sections.length = fs.sections.length :=
  List.length_set ..

/-- Calling `data()` either leaves the file state alone or writes exactly the
section's own data cache. -/
theorem sec_data_state (fs : FileState) (i : Nat) :
    (sec_data fs i).2.1 = fs ∨
    (sec_data fs i).2.1 = updateSec fs i
      { file_get_section_idx fs i with
        dataCache := some (loadBytes fs.fileBytes (file_get_section_idx fs i).hdr.offset
          (file_get_section_idx fs i).hdr.size) } := by
  unfold sec_data
  by_cases ht : (file_get_section_idx fs i).hdr.type = shtNobits
  · left; simp [ht]
  · cases hc : (file_get_section_idx fs i).dataCache with
    | some d => left; simp [ht, hc]
    | none => right; simp [ht, hc]

/-- Calling `data()` never touches the file's bytes or header, never changes the
section count, leaves every sibling section untouched, and on the section
itself changes at most the data cache. -/
theorem sec_data_shape (fs : FileState) (i : Nat) :
    (sec_data fs i).2.1.fileBytes = fs.fileBytes ∧
    (sec_data fs i).2.1.hdr = fs.hdr ∧
    (sec_data fs i).2.1.sections.length = fs.sections.length ∧
    (∀ j, j ≠ i → file_get_section_idx (sec_data fs i).2.1 j = file_get_section_idx fs j) ∧
    (file_get_section_idx (sec_data fs i).2.1 i).hdr = (file_get_section_idx fs i).hdr ∧
    (file_get_section_idx (sec_data fs i).2.1 i).nameCache
      = (file_get_section_idx fs i).nameCache := by
  rcases sec_data_state fs i with h | h <;> rw [h]
  · exact ⟨rfl, rfl, rfl, fun _ _ => rfl, rfl, rfl⟩
  · refine ⟨rfl, rfl, updateSec_length .., fun j hj => idx_updateSec_ne _ _ _ _ (fun e => hj e.symm), ?_, ?_⟩ <;>
      by_cases hi : i < fs.sections.length
    · rw [idx_updateSec_self _ _ _ hi]
    · rw [updateSec_oob _ _ _ (Nat.le_of_not_lt hi)]
    · rw [idx_updateSec_self _ _ _ hi]
    · rw [updateSec_oob _ _ _ (Nat.le_of_not_lt hi)]

/-- Second `data()` call: same payload, same state, no loader call. -/
theorem sec_data_idem (fs : FileState) (i : Nat) (h : i < fs.sections.length) :
    sec_data (sec_data fs i).2.1 i = ((sec_data fs i).1, (sec_data fs i).2.1, 0) := by
  by_cases ht : (file_get_section_idx fs i).hdr.type = shtNobits
  · have h1 : sec_data fs i = (none, fs, 0) := by unfold sec_data; simp [ht]
    rw [h1]
    unfold sec_data
    simp [ht]
  · cases hc : (file_get_section_idx fs i).dataCache with
    | some d =>
      have h1 : sec_data fs i = (some d, fs, 0) := by unfold sec_data; simp [ht, hc]
      rw [h1]
      unfold sec_data
      simp [ht, hc]
    | none =>
      have h1 : sec_data fs i =
          (some (loadBytes fs.fileBytes (file_get_section_idx fs i).hdr.offset
              (file_get_section_idx fs i).hdr.size),
           updateSec fs i
             { file_get_section_idx fs i with
               dataCache := some (loadBytes fs.fileBytes (file_get_section_idx fs i).hdr.offset
                 (file_get_section_idx fs i).hdr.size) }, 1) := by
        unfold sec_data
        simp [ht, hc]
      rw [h1]
      unfold sec_data
      rw [idx_updateSec_self _ _ _ h]
      simp [ht]

/-- C6: `data()` on a no-bits section is absent with no loader call; on
any other section the first call (empty cache) loads exactly the byte
range `[offset, offset + size)` through the loader in one call, a cached
value is returned with no loader call, and the call after a first load
returns the same payload with no loader call. -/
theorem sec_data_correct (fs : FileState) (i : Nat) (h : i < fs.sections.length) :
    ((file_get_section_idx fs i).hdr.type = shtNobits →
      sec_data fs i = (none, fs, 0)) ∧
    ((file_get_section_idx fs i).hdr.type ≠ shtNobits →
      ∀ d, (file_get_section_idx fs i).dataCache = some d →
        sec_data fs i = (some d, fs, 0)) ∧
    ((file_get_section_idx fs i).hdr.type ≠ shtNobits →
      (file_get_section_idx fs i).dataCache = none →
        (sec_data fs i).1 = some (loadBytes fs.fileBytes
            (file_get_section_idx fs i).hdr.offset (file_get_section_idx fs i).hdr.size) ∧
        (sec_data fs i).2.2 = 1 ∧
        sec_data (sec_data fs i).2.1 i = ((sec_data fs i).1, (sec_data fs i).2.1, 0)) := by
  refine ⟨?_, ?_, ?_⟩
  · intro ht
    unfold sec_data
    simp [ht]
  · intro ht d hc
    unfold sec_data
    simp [ht, hc]
  · intro ht hc
    refine ⟨?_, ?_, sec_data_idem fs i h⟩ <;>
      · unfold sec_data
        simp [ht, hc]

theorem sec_data_correct_witness :
    sec_data exFs 2 = (none, exFs, 0) :=
  (sec_data_correct exFs 2 (by decide)).1 (by decide)

/-- C8: `as_strtab()` throws `section_type_mismatch` exactly when the
section's type is not `sht::strtab`; the throw happens before any state is
touched (the error result carries no mutation — the `data()` call is never
reached), and on a matching type the result is the string-table view over
this section's `data()`, with `data()`'s state effect and loader call. -/
theorem as_strtab_correct (fs : FileState) (i : Nat) :
    ((∃ m, sec_as_strtab fs i = .error (.typeMismatch m)) ↔
      (file_get_section_idx fs i).hdr.type ≠ shtStrtab) ∧
    ((file_get_section_idx fs i).hdr.type ≠ shtStrtab →
      sec_as_strtab fs i = .error (.typeMismatch "cannot use section as strtab")) ∧
    ((file_get_section_idx fs i).hdr.type = shtStrtab →
      sec_as_strtab fs i =
        .ok ((sec_data fs i).1.getD [], (sec_data fs i).2.1, (sec_data fs i).2.2)) := by
  by_cases ht : (file_get_section_idx fs i).hdr.type = shtStrtab
  · refine ⟨?_, fun hne => absurd ht hne, fun _ => ?_⟩
    · constructor
      · rintro ⟨m, hm⟩
        unfold sec_as_strtab at hm
        rw [if_neg (fun hne => hne ht)] at hm
        cases hm
      · intro hne
        exact absurd ht hne
    · unfold sec_as_strtab
      rw [if_neg (fun hne => hne ht)]
  · have he : sec_as_strtab fs i = .error (.typeMismatch "cannot use section as strtab") := by
      unfold sec_as_strtab
      rw [if_pos ht]
    exact ⟨⟨fun _ => ht, fun _ => ⟨_, he⟩⟩, fun _ => he, fun heq => absurd heq ht⟩

theorem as_strtab_correct_witness :
    sec_as_strtab exFs 1 = .error (.typeMismatch "cannot use section as strtab") :=
  (as_strtab_correct exFs 1).2.1 (by decide)

theorem file_open_shnum_zero_witness :
    file_open (encodeEhdr64 1 ⟨2, 1, 1, 0, 0, 0, 65535⟩)
        = .ok (openFile (encodeEhdr64 1 ⟨2, 1, 1, 0, 0, 0, 65535⟩)) ∧
    (openFile (encodeEhdr64 1 ⟨2, 1, 1, 0, 0, 0, 65535⟩)).sections = [] :=
  file_open_shnum_zero (encodeEhdr64 1 ⟨2, 1, 1, 0, 0, 0, 65535⟩)
    rfl rfl (by decide) (by decide) (by decide) (by decide)

theorem updateSec_fileBytes (fs : FileState) (i : Nat) (s : SecState) :
    (updateSec fs i s).fileBytes = fs.fileBytes := rfl

theorem updateSec_hdr (fs : FileState) (i : Nat) (s : SecState) :
    (updateSec fs i s).hdr = fs.hdr := rfl

theorem sec_as_strtab_eq_ok (fs : FileState) (j : Nat)
    (ht : (file_get_section_idx fs j).hdr.type = shtStrtab) :
    sec_as_strtab fs j =
      .ok ((sec_data fs j).1.getD [], (sec_data fs j).2.1, (sec_data fs j).2.2) := by
  unfold sec_as_strtab
  rw [if_neg (fun hne => hne ht)]

theorem sec_as_strtab_eq_error (fs : FileState) (j : Nat)
    (ht : (file_get_section_idx fs j).hdr.type ≠ shtStrtab) :
    sec_as_strtab fs j = .error (.typeMismatch "cannot use section as strtab") := by
  unfold sec_as_strtab
  rw [if_pos ht]

/-- Case analysis of a successful `get_name()`: either the cache was hit
(no state change, no load), or the name was freshly resolved through the
string-table section, caching it on this section after `data()`'s effect
on the string-table section. -/
theorem sec_get_name_cases (fs : FileState) (i : Nat) (n : List Nat) (fs1 : FileState)
    (c : Nat) (hok : sec_get_name fs i = .ok (n, fs1, c)) :
    ((file_get_section_idx fs i).nameCache = some n ∧ fs1 = fs ∧ c = 0) ∨
    ((file_get_section_idx fs i).nameCache = none ∧
     (file_get_section_idx fs fs.hdr.shstrndx).hdr.type = shtStrtab ∧
     ∃ len, strtab_get ((sec_data fs fs.hdr.shstrndx).1.getD [])
         (file_get_section_idx fs i).hdr.name = .ok (n, len) ∧
       fs1 = updateSec (sec_data fs fs.hdr.shstrndx).2.1 i
         { file_get_section_idx (sec_data fs fs.hdr.shstrndx).2.1 i with
           nameCache := some n } ∧
       c = (sec_data fs fs.hdr.shstrndx).2.2) := by
  simp only [sec_get_name] at hok
  split at hok
  next n0 hnc =>
    have h3 : n0 = n ∧ fs = fs1 ∧ 0 = c := by simpa using hok
    obtain ⟨rfl, rfl, rfl⟩ := h3
    exact Or.inl ⟨hnc, rfl, rfl⟩
  next hnc =>
    split at hok
    next e hst => cases hok
    next tab fs' c' hst =>
      have ht : (file_get_section_idx fs fs.hdr.shstrndx).hdr.type = shtStrtab := by
        by_contra hty
        rw [sec_as_strtab_eq_error fs _ hty] at hst
        cases hst
      rw [sec_as_strtab_eq_ok fs _ ht] at hst
      have h4 : (sec_data fs fs.hdr.shstrndx).1.getD [] = tab ∧
          (sec_data fs fs.hdr.shstrndx).2.1 = fs' ∧
          (sec_data fs fs.hdr.shstrndx).2.2 = c' := by simpa [Prod.ext_iff] using hst
      obtain ⟨rfl, rfl, rfl⟩ := h4
      split at hok
      next e hget => cases hok
      next str len hget =>
        have h3 : str = n ∧
            updateSec (sec_data fs fs.hdr.shstrndx).2.1 i
              { file_get_section_idx (sec_data fs fs.hdr.shstrndx).2.1 i with
                nameCache := some str } = fs1 ∧
            (sec_data fs fs.hdr.shstrndx).2.2 = c := by simpa using hok
        obtain ⟨rfl, rfl, rfl⟩ := h3
        exact Or.inr ⟨hnc, ht, len, hget, rfl, rfl⟩

theorem sameShape_rfl (fs : FileState) : SameShape fs fs :=
  ⟨rfl, rfl, rfl, fun _ => rfl⟩

theorem sameShape_trans {fs fs1 fs2 : FileState} (h : SameShape fs fs1)
    (h' : SameShape fs1 fs2) : SameShape fs fs2 := by
  obtain ⟨a, b, c, d⟩ := h
  obtain ⟨a', b', c', d'⟩ := h'
  exact ⟨a'.trans a, b'.trans b, c'.trans c, fun k => (d' k).trans (d k)⟩

theorem resolveName_congr (fs fs1 : FileState) (hs : SameShape fs fs1) (i : Nat) :
    resolveName fs1 i = resolveName fs i := by
  obtain ⟨hb, hh, _, hk⟩ := hs
  unfold resolveName
  rw [hb, hh, hk fs.hdr.shstrndx, hk i]

theorem shape_updateSec (fs : FileState) (j : Nat) (s : SecState)
    (hh : s.hdr = (file_get_section_idx fs j).hdr) :
    SameShape fs (updateSec fs j s) := by
  refine ⟨rfl, rfl, updateSec_length .., fun k => ?_⟩
  by_cases hk : j = k
  · subst hk
    by_cases hj : j < fs.sections.length
    · rw [idx_updateSec_self _ _ _ hj, hh]
    · rw [updateSec_oob _ _ _ (Nat.le_of_not_lt hj)]
  · rw [idx_updateSec_ne _ _ _ _ hk]

theorem consistent_updateSec (fs : FileState) (j : Nat) (s : SecState)
    (hh : s.hdr = (file_get_section_idx fs j).hdr)
    (hd : ∀ d, s.dataCache = some d → d = loadBytes fs.fileBytes s.hdr.offset s.hdr.size)
    (hn : ∀ n, s.nameCache = some n → resolveName fs j = .ok n)
    (hc : Consistent fs) :
    Consistent (updateSec fs j s) := by
  by_cases hj : j < fs.sections.length
  · have hs := shape_updateSec fs j s hh
    intro i
    have hres : resolveName (updateSec fs j s) i = resolveName fs i :=
      resolveName_congr _ _ hs i
    by_cases hij : j = i
    · subst hij
      rw [idx_updateSec_self _ _ _ hj]
      constructor
      · intro d hdc
        rw [updateSec_fileBytes]
        exact hd d hdc
      · intro n hnc
        rw [hres]
        exact hn n hnc
    · rw [idx_updateSec_ne _ _ _ _ hij]
      constructor
      · intro d hdc
        rw [updateSec_fileBytes]
        exact (hc i).1 d hdc
      · intro n hnc
        rw [hres]
        exact (hc i).2 n hnc
  · rw [updateSec_oob _ _ _ (Nat.le_of_not_lt hj)]
    exact hc

/-- Calling `data()` preserves shape and cache consistency. -/
theorem sec_data_preserves (fs : FileState) (j : Nat) (hc : Consistent fs) :
    SameShape fs (sec_data fs j).2.1 ∧ Consistent (sec_data fs j).2.1 := by
  rcases sec_data_state fs j with h | h <;> rw [h]
  · exact ⟨sameShape_rfl fs, hc⟩
  · constructor
    · exact shape_updateSec _ _ _ rfl
    · refine consistent_updateSec _ _ _ rfl ?_ ?_ hc
      · intro d hdc
        cases hdc
        rfl
      · intro n hnc
        exact (hc j).2 n hnc

/-- Under consistent caches, the table `as_strtab()` hands to
`strtab::get` is the string-table section's `[offset, offset + size)`
range. -/
theorem sec_data_tab (fs : FileState) (j : Nat) (hc : Consistent fs)
    (ht : (file_get_section_idx fs j).hdr.type = shtStrtab) :
    (sec_data fs j).1 = some (loadBytes fs.fileBytes
      (file_get_section_idx fs j).hdr.offset (file_get_section_idx fs j).hdr.size) := by
  have hnb : (file_get_section_idx fs j).hdr.type ≠ shtNobits := by
    rw [ht]
    decide
  cases hdc : (file_get_section_idx fs j).dataCache with
  | some d =>
    have hd := (hc j).1 d hdc
    unfold sec_data
    simp [hnb, hdc, hd]
  | none =>
    unfold sec_data
    simp [hnb, hdc]

theorem sec_get_name_eval_hit (fs : FileState) (i : Nat) (n0 : List Nat)
    (hnc : (file_get_section_idx fs i).nameCache = some n0) :
    sec_get_name fs i = .ok (n0, fs, 0) := by
  simp only [sec_get_name]
  rw [hnc]

theorem sec_get_name_eval_badtab (fs : FileState) (i : Nat)
    (hnc : (file_get_section_idx fs i).nameCache = none)
    (ht : (file_get_section_idx fs fs.hdr.shstrndx).hdr.type ≠ shtStrtab) :
    sec_get_name fs i = .error (.typeMismatch "cannot use section as strtab") := by
  simp only [sec_get_name]
  rw [hnc, sec_as_strtab_eq_error fs _ ht]

theorem sec_get_name_eval_miss (fs : FileState) (i : Nat)
    (hnc : (file_get_section_idx fs i).nameCache = none)
    (ht : (file_get_section_idx fs fs.hdr.shstrndx).hdr.type = shtStrtab) :
    sec_get_name fs i =
      match strtab_get ((sec_data fs fs.hdr.shstrndx).1.getD [])
          (file_get_section_idx fs i).hdr.name with
      | .error e => .error e
      | .ok (str, _) =>
        .ok (str, updateSec (sec_data fs fs.hdr.shstrndx).2.1 i
          { file_get_section_idx (sec_data fs fs.hdr.shstrndx).2.1 i with
            nameCache := some str }, (sec_data fs fs.hdr.shstrndx).2.2) := by
  simp only [sec_get_name]
  rw [hnc, sec_as_strtab_eq_ok fs _ ht]

/-- Under consistent caches, `get_name()` computes exactly the cache-free
resolution: a resolution error surfaces as the same thrown exception, and
a resolved name is returned, with the resulting state still consistent and
of the same shape. -/
theorem sec_get_name_resolve (fs : FileState) (i : Nat) (hc : Consistent fs) :
    (∀ e, resolveName fs i = .error e → sec_get_name fs i = .error e) ∧
    (∀ n, resolveName fs i = .ok n →
      ∃ fs1 c, sec_get_name fs i = .ok (n, fs1, c) ∧ SameShape fs fs1 ∧ Consistent fs1) := by
  cases hnc : (file_get_section_idx fs i).nameCache with
  | some n0 =>
    have hres := (hc i).2 n0 hnc
    constructor
    · intro e he
      rw [hres] at he
      cases he
    · intro n hn
      rw [hres] at hn
      obtain rfl : n0 = n := by simpa using hn
      exact ⟨fs, 0, sec_get_name_eval_hit fs i n0 hnc, sameShape_rfl fs, hc⟩
  | none =>
    by_cases ht : (file_get_section_idx fs fs.hdr.shstrndx).hdr.type = shtStrtab
    · have htab := sec_data_tab fs fs.hdr.shstrndx hc ht
      have hres_eq : resolveName fs i =
          match strtab_get (loadBytes fs.fileBytes
              (file_get_section_idx fs fs.hdr.shstrndx).hdr.offset
              (file_get_section_idx fs fs.hdr.shstrndx).hdr.size)
            (file_get_section_idx fs i).hdr.name with
          | .error e => .error e
          | .ok r => .ok r.1 := by
        unfold resolveName
        rw [if_neg (fun hne => hne ht)]
      cases hget : strtab_get (loadBytes fs.fileBytes
          (file_get_section_idx fs fs.hdr.shstrndx).hdr.offset
          (file_get_section_idx fs fs.hdr.shstrndx).hdr.size)
        (file_get_section_idx fs i).hdr.name with
      | error e0 =>
        have hres : resolveName fs i = .error e0 := by
          rw [hres_eq, hget]
        have hsec : sec_get_name fs i = .error e0 := by
          rw [sec_get_name_eval_miss fs i hnc ht]
          simp only [htab, Option.getD_some]
          rw [hget]
        constructor
        · intro e he
          rw [hres] at he
          cases he
          exact hsec
        · intro n hn
          rw [hres] at hn
          cases hn
      | ok r =>
        obtain ⟨str, len⟩ := r
        have hres : resolveName fs i = .ok str := by
          rw [hres_eq, hget]
        have hsec : sec_get_name fs i =
            .ok (str, updateSec (sec_data fs fs.hdr.shstrndx).2.1 i
              { file_get_section_idx (sec_data fs fs.hdr.shstrndx).2.1 i with
                nameCache := some str }, (sec_data fs fs.hdr.shstrndx).2.2) := by
          rw [sec_get_name_eval_miss fs i hnc ht]
          simp only [htab, Option.getD_some]
          rw [hget]
        obtain ⟨hsh1, hc1⟩ := sec_data_preserves fs fs.hdr.shstrndx hc
        have hsh2 : SameShape (sec_data fs fs.hdr.shstrndx).2.1
            (updateSec (sec_data fs fs.hdr.shstrndx).2.1 i
              { file_get_section_idx (sec_data fs fs.hdr.shstrndx).2.1 i with
                nameCache := some str }) :=
          shape_updateSec _ _ _ rfl
        have hshape := sameShape_trans hsh1 hsh2
        have hcons : Consistent (updateSec (sec_data fs fs.hdr.shstrndx).2.1 i
            { file_get_section_idx (sec_data fs fs.hdr.shstrndx).2.1 i with
              nameCache := some str }) := by
          refine consistent_updateSec _ i _ rfl (fun d hd => (hc1 i).1 d hd) ?_ hc1
          intro n' hn'
          obtain rfl : str = n' := by simpa using hn'
          rw [resolveName_congr fs _ hsh1 i]
          exact hres
        constructor
        · intro e he
          rw [hres] at he
          cases he
        · intro n hn
          rw [hres] at hn
          obtain rfl : str = n := by simpa using hn
          exact ⟨_, _, hsec, hshape, hcons⟩
    · have hres : resolveName fs i = .error (.typeMismatch "cannot use section as strtab") := by
        unfold resolveName
        rw [if_pos ht]
      have hsec := sec_get_name_eval_badtab fs i hnc ht
      constructor
      · intro e he
        rw [hres] at he
        cases he
        exact hsec
      · intro n hn
        rw [hres] at hn
        cases hn

/-- When every listed section's name resolves to something other than the
target, the scan finishes with the sentinel (and no exception). -/
theorem scan_name_no_match (name : List Nat) :
    ∀ ks fs, Consistent fs →
      (∀ k ∈ ks, ∃ s, resolveName fs k = .ok s ∧ s ≠ name) →
      ∃ fs1, scan_name name ks fs = .ok (invalid_section, fs1) := by
  intro ks
  induction ks with
  | nil => exact fun fs _ _ => ⟨fs, rfl⟩
  | cons k rest ih =>
    intro fs hc hall
    obtain ⟨s, hres, hne⟩ := hall k (List.mem_cons_self ..)
    obtain ⟨fs1, c, hsec, hshape, hc1⟩ := (sec_get_name_resolve fs k hc).2 s hres
    obtain ⟨fs2, hscan⟩ := ih fs1 hc1 (fun k' hk' => by
      obtain ⟨s', h1, h2⟩ := hall k' (List.mem_cons_of_mem _ hk')
      exact ⟨s', (resolveName_congr fs fs1 hshape k').trans h1, h2⟩)
    refine ⟨fs2, ?_⟩
    simp only [scan_name]
    rw [hsec]
    simp only [if_neg hne]
    exact hscan

/-- When the sections before index `k` resolve to non-matching names and
section `k`'s resolution fails, the scan propagates that failure. -/
theorem scan_name_propagates (name : List Nat) :
    ∀ (ks₁ : List Nat) (k : Nat) (ks₂ : List Nat) (fs : FileState) (e : ElfError),
      Consistent fs →
      (∀ k' ∈ ks₁, ∃ s, resolveName fs k' = .ok s ∧ s ≠ name) →
      resolveName fs k = .error e →
      scan_name name (ks₁ ++ k :: ks₂) fs = .error e := by
  intro ks₁
  induction ks₁ with
  | nil =>
    intro k ks₂ fs e hc _ herr
    have hsec := (sec_get_name_resolve fs k hc).1 e herr
    simp only [List.nil_append, scan_name]
    rw [hsec]
  | cons k0 rest ih =>
    intro k ks₂ fs e hc hall herr
    obtain ⟨s, hres, hne⟩ := hall k0 (List.mem_cons_self ..)
    obtain ⟨fs1, c, hsec, hshape, hc1⟩ := (sec_get_name_resolve fs k0 hc).2 s hres
    simp only [List.cons_append, scan_name]
    rw [hsec]
    simp only [if_neg hne]
    exact ih k ks₂ fs1 e hc1
      (fun k' hk' => by
        obtain ⟨s', h1, h2⟩ := hall k' (List.mem_cons_of_mem _ hk')
        exact ⟨s', (resolveName_congr fs fs1 hshape k').trans h1, h2⟩)
      ((resolveName_congr fs fs1 hshape k).trans herr)

theorem file_open_caches_none (bytes : List Nat) (fs : FileState)
    (h : file_open bytes = .ok fs) :
    ∀ i, (file_get_section_idx fs i).nameCache = none ∧
      (file_get_section_idx fs i).dataCache = none := by
  have hfs : fs = openFile bytes := by
    unfold file_open at h
    split_ifs at h <;> cases h <;> rfl
  subst hfs
  intro i
  show ((openSections bytes).getD i invalid_section).nameCache = none ∧
    ((openSections bytes).getD i invalid_section).dataCache = none
  unfold openSections
  by_cases hi : i < (openEhdr bytes).shnum
  · rw [List.getD_eq_getElem?_getD, List.getElem?_map, List.getElem?_range hi]
    exact ⟨rfl, rfl⟩
  · rw [List.getD_eq_getElem?_getD, List.getElem?_eq_none
      (by simpa using Nat.le_of_not_lt hi)]
    exact ⟨rfl, rfl⟩

theorem file_open_consistent (bytes : List Nat) (fs : FileState)
    (h : file_open bytes = .ok fs) : Consistent fs := by
  intro i
  obtain ⟨hn, hd⟩ := file_open_caches_none bytes fs h i
  constructor
  · intro d hdc
    rw [hd] at hdc
    cases hdc
  · intro n hnc
    rw [hn] at hnc
    cases hnc

/-- C7 counterexample: the claim that `Name()` and `Data()` mutate only
the called section's private cache, leaving sibling sections unchanged, is
false — on the freshly opened example file, resolving section 1's name
populates sibling section 0's (the string-table section's) data cache,
observably: section 0's data cache goes from `none` to the table's bytes. -/
theorem sec_get_name_mutates_sibling_cache :
    file_open exFile = .ok exFs ∧
    exFs.hdr.shstrndx = 0 ∧
    (file_get_section_idx exFs 0).dataCache = none ∧
    (sec_get_name exFs 1).map (fun r => (file_get_section_idx r.2.1 0).dataCache)
      = .ok (some [0, 46, 115, 104, 115, 116, 114, 116, 97, 98, 0,
                   46, 116, 101, 120, 116, 0, 46, 98, 115, 115, 0]) :=
  ⟨rfl, rfl, rfl, rfl⟩

/-- C7 (amended): `Data()` and `Name()` are idempotent — a second call
returns identical content, performs no additional loader call, and leaves
the state unchanged — and `Data()` mutates only this section's data cache
(file bytes, header, section count, every sibling section, and this
section's header and name cache are untouched), while `Name()` mutates
this section's name cache and, through the string-table lookup, possibly
the string-table section's data cache, touching nothing else (every
section other than this one and the `shstrndx` section is unchanged, this
section's header is unchanged, and when this section is not the
string-table section, that section's header and name cache are also
unchanged). -/
theorem sec_calls_idempotent_and_cache_scoped (fs : FileState) (i : Nat)
    (h : i < fs.sections.length) :
    (sec_data (sec_data fs i).2.1 i = ((sec_data fs i).1, (sec_data fs i).2.1, 0)) ∧
    ((sec_data fs i).2.1.fileBytes = fs.fileBytes ∧
     (sec_data fs i).2.1.hdr = fs.hdr ∧
     (sec_data fs i).2.1.sections.length = fs.sections.length ∧
     (∀ j, j ≠ i → file_get_section_idx (sec_data fs i).2.1 j = file_get_section_idx fs j) ∧
     (file_get_section_idx (sec_data fs i).2.1 i).hdr = (file_get_section_idx fs i).hdr ∧
     (file_get_section_idx (sec_data fs i).2.1 i).nameCache
       = (file_get_section_idx fs i).nameCache) ∧
    (∀ n fs1 c, sec_get_name fs i = .ok (n, fs1, c) →
      sec_get_name fs1 i = .ok (n, fs1, 0) ∧
      fs1.fileBytes = fs.fileBytes ∧
      fs1.hdr = fs.hdr ∧
      fs1.sections.length = fs.sections.length ∧
      (∀ j, j ≠ i → j ≠ fs.hdr.shstrndx →
        file_get_section_idx fs1 j = file_get_section_idx fs j) ∧
      (file_get_section_idx fs1 i).hdr = (file_get_section_idx fs i).hdr ∧
      (i ≠ fs.hdr.shstrndx →
        (file_get_section_idx fs1 fs.hdr.shstrndx).hdr
          = (file_get_section_idx fs fs.hdr.shstrndx).hdr ∧
        (file_get_section_idx fs1 fs.hdr.shstrndx).nameCache
          = (file_get_section_idx fs fs.hdr.shstrndx).nameCache)) := by
  refine ⟨sec_data_idem fs i h, sec_data_shape fs i, ?_⟩
  intro n fs1 c hok
  rcases sec_get_name_cases fs i n fs1 c hok with ⟨hnc, h1, h2⟩ | ⟨hnc, ht, len, hget, hfs1, hc⟩
  · obtain rfl := h1.symm
    subst h2
    exact ⟨sec_get_name_eval_hit fs i n hnc, rfl, rfl, rfl, fun _ _ _ => rfl, rfl,
      fun _ => ⟨rfl, rfl⟩⟩
  · subst hfs1
    subst hc
    obtain ⟨hdb, hdh, hdl, hdn, hdi, hdnc⟩ := sec_data_shape fs fs.hdr.shstrndx
    have hi' : i < (sec_data fs fs.hdr.shstrndx).2.1.sections.length := by
      rw [hdl]
      exact h
    have hidx : file_get_section_idx (updateSec (sec_data fs fs.hdr.shstrndx).2.1 i
        { file_get_section_idx (sec_data fs fs.hdr.shstrndx).2.1 i with
          nameCache := some n }) i
        = { file_get_section_idx (sec_data fs fs.hdr.shstrndx).2.1 i with
            nameCache := some n } :=
      idx_updateSec_self _ _ _ hi'
    refine ⟨?_, hdb, hdh, ?_, ?_, ?_, ?_⟩
    · rw [sec_get_name_eval_hit _ i n (by rw [hidx])]
    · rw [updateSec_length]
      exact hdl
    · intro j hji hjs
      rw [idx_updateSec_ne _ _ _ _ (fun e => hji e.symm)]
      exact hdn j hjs
    · rw [hidx]
      by_cases his : i = fs.hdr.shstrndx
      · subst his
        exact hdi
      · show (file_get_section_idx (sec_data fs fs.hdr.shstrndx).2.1 i).hdr
          = (file_get_section_idx fs i).hdr
        rw [hdn i his]
    · intro his
      rw [idx_updateSec_ne _ _ _ _ his]
      exact ⟨hdi, hdnc⟩

theorem sec_calls_idempotent_and_cache_scoped_witness :
    sec_data (sec_data exFs 1).2.1 1 = ((sec_data exFs 1).1, (sec_data exFs 1).2.1, 0) ∧
    sec_get_name exFsAfterName 1 = .ok (dotText, exFsAfterName, 0) ∧
    exFsAfterName.hdr = exFs.hdr :=
  have h := sec_calls_idempotent_and_cache_scoped exFs 1 (by decide)
  have h3 := h.2.2 dotText exFsAfterName 1 rfl
  ⟨h.1, h3.1, h3.2.2.1⟩

/-- C5: on a successfully opened file, `get_section(index)` with an
out-of-range index yields the Invalid Section sentinel and with an
in-range index yields section number `index`; the sentinel's size is 0 and
its type is the null/invalid kind; and `get_section(name)` whose scan
resolves every section's name to something other than `name` finishes
with the sentinel — no not-found exception exists in either path. -/
theorem get_section_sentinel (bytes : List Nat) (fs : FileState)
    (hopen : file_open bytes = .ok fs) :
    (∀ idx, fs.sections.length ≤ idx → file_get_section_idx fs idx = invalid_section) ∧
    (∀ idx (hl : idx < fs.sections.length),
      file_get_section_idx fs idx = fs.sections.get ⟨idx, hl⟩) ∧
    invalid_section.hdr.size = 0 ∧ invalid_section.hdr.type = 0 ∧
    (∀ name, (∀ k, k < fs.sections.length → ∃ s, resolveName fs k = .ok s ∧ s ≠ name) →
      (file_get_section_name fs name).map Prod.fst = .ok invalid_section) := by
  refine ⟨fun idx hl => idx_oob fs idx hl, ?_, rfl, rfl, ?_⟩
  · intro idx hl
    unfold file_get_section_idx
    rw [List.getD_eq_getElem _ _ hl]
    rfl
  · intro name hall
    obtain ⟨fs1, hscan⟩ := scan_name_no_match name (List.range fs.sections.length) fs
      (file_open_consistent bytes fs hopen)
      (fun k hk => hall k (List.mem_range.mp hk))
    unfold file_get_section_name
    rw [hscan]
    rfl

theorem get_section_sentinel_witness :
    file_get_section_idx exFs 99999 = invalid_section ∧
    invalid_section.hdr.size = 0 ∧ invalid_section.hdr.type = 0 ∧
    (file_get_section_name exFs [46, 120]).map Prod.fst = .ok invalid_section :=
  have h := get_section_sentinel exFile exFs rfl
  ⟨h.1 99999 (by decide), h.2.2.1, h.2.2.2.1,
    h.2.2.2.2 [46, 120] (fun k hk => by
      have hk3 : k < 3 := by
        have he : exFs.sections.length = 3 := rfl
        omega
      interval_cases k
      · exact ⟨dotShstrtab, rfl, by decide⟩
      · exact ⟨dotText, rfl, by decide⟩
      · exact ⟨dotBss, rfl, by decide⟩)⟩

/-- C9: `get_section(name)` is not exception-free — the scan resolves
names in table order, so when every section before index `i` resolves to a
non-matching name and resolving section `i`'s name fails, that exception
propagates out of the lookup instead of the sentinel being returned. -/
theorem get_section_name_propagates (bytes : List Nat) (fs : FileState)
    (name : List Nat) (i : Nat) (e : ElfError)
    (hopen : file_open bytes = .ok fs) (hi : i < fs.sections.length)
    (hall : ∀ j, j < i → ∃ s, resolveName fs j = .ok s ∧ s ≠ name)
    (herr : resolveName fs i = .error e) :
    file_get_section_name fs name = .error e := by
  have hc : Consistent fs := file_open_consistent bytes fs hopen
  unfold file_get_section_name
  obtain ⟨m, hm⟩ : ∃ m, fs.sections.length = i + (m + 1) :=
    ⟨fs.sections.length - i - 1, by omega⟩
  rw [hm, List.range_add, List.range_succ_eq_map]
  simp only [List.map_cons, Nat.add_zero]
  exact scan_name_propagates name (List.range i) i _ fs e hc
    (fun k' hk' => hall k' (List.mem_range.mp hk')) herr

theorem get_section_name_propagates_witness :
    file_get_section_name (openFile exFileBadName) dotText
      = .error (.rangeError "string offset 100 exceeds section size") :=
  get_section_name_propagates exFileBadName (openFile exFileBadName) dotText 1
    (.rangeError "string offset 100 exceeds section size") rfl (by decide)
    (fun j hj => by
      interval_cases j
      exact ⟨dotShstrtab, rfl, by decide⟩)
    rfl

end Elfpp
